import Mathlib

/-!
Verification development for the MoNuSeg data-preparation scripts
(`src/preprocessing/preprocess_MoNuSeg.py`,
`src/preprocessing/simple_nuclei_detector.py`, `src/utils/prepare_dataset.py`).

Images are modelled as a height, a width and a pixel function; the tiling,
partitioning, parsing and evaluation loops are translated into executable
Lean functions, and the spec's claims are settled as theorems about them.
-/

namespace MoNuSeg
/-- An in-memory image (or mask): height, width, and the pixel value at each
(row, column).  Channel structure is irrelevant to the claims, so a pixel is a
single natural number. -/
structure Image where
  H : Nat
  W : Nat
  pix : Nat → Nat → Nat

/-- The grid-tile offsets visited by the nested loops
`for h_chunk in range(image_h // imsize): for w_chunk in range(image_w // imsize)`
of `subset_patchify_MoNuSeg_data_by_cancer` (and of the intra-image variant):
the pair `(h_chunk * imsize, w_chunk * imsize)` in row-major order. -/
def tileOffsets (image_h image_w imsize : Nat) : List (Nat × Nat) :=
  (List.range (image_h / imsize)).flatMap fun h_chunk =>
    (List.range (image_w / imsize)).map fun w_chunk =>
      (h_chunk * imsize, w_chunk * imsize)

/-- The patch `arr[h_begin:h_end, w_begin:w_end]` of a pixel function,
materialised as a list of rows of pixel values. -/
def extractPatch (pix : Nat → Nat → Nat) (h_begin h_end w_begin w_end : Nat) :
    List (List Nat) :=
  (List.range (h_end - h_begin)).map fun i =>
    (List.range (w_end - w_begin)).map fun j => pix (h_begin + i) (w_begin + j)

/-- One image/mask patch pair written by the plain tiler, keyed by its
`_H<row>W<col>` offsets. -/
structure TilePatch where
  h : Nat
  w : Nat
  image_patch : List (List Nat)
  mask_patch : List (List Nat)
deriving DecidableEq

/-- The per-item loop body of `subset_patchify_MoNuSeg_data_by_cancer`:
for each grid tile, clamp the bounds to the image and write the image patch and
the mask patch.  The file writes are modelled as the returned list. -/
def subset_patchify_MoNuSeg_data_by_cancer (image mask : Image) (imsize : Nat) :
    List TilePatch :=
  (tileOffsets image.H image.W imsize).map fun hw =>
    let h := hw.1
    let w := hw.2
    let h_begin := max h 0
    let w_begin := max w 0
    let h_end := min (h + imsize) image.H
    let w_end := min (w + imsize) image.W
    { h := h
      w := w
      image_patch := extractPatch image.pix h_begin h_end w_begin w_end
      mask_patch := extractPatch mask.pix h_begin h_end w_begin w_end }

/-- Row-major closed form of the tile offsets: the `i`-th visited tile is
`((i / (W/imsize)) * imsize, (i % (W/imsize)) * imsize)`. -/
def rowMajorTile (image_w imsize i : Nat) : Nat × Nat :=
  ((i / (image_w / imsize)) * imsize, (i % (image_w / imsize)) * imsize)

/-- Output split of an intra-image write: the per-image evidence tree
(`img<k>_train`) or the held-out tree (`img<k>_test`). -/
inductive Split where
  | train : Split
  | test : Split
deriving DecidableEq

/-- One image/mask pair written by the intra-image partitioner: the target tree,
the `_H<row>W<col>` offsets, and the pixel content of both files. -/
structure PatchWrite where
  split : Split
  h : Nat
  w : Nat
  image_patch : List (List Nat)
  mask_patch : List (List Nat)
deriving DecidableEq

/-- `patch * 0`: the all-zero patch of the same shape, as computed by
`empty_image_patch = image_patch * 0`. -/
def zeroPatch (patch : List (List Nat)) : List (List Nat) :=
  patch.map fun row => row.map fun v => v * 0

/-- The slice assignment
`canvas[h_begin:h_end, w_begin:w_end] = src[h_begin:h_end, w_begin:w_end]`
on a pixel function. -/
def updateRegion (canvas src : Nat → Nat → Nat) (h_begin h_end w_begin w_end : Nat) :
    Nat → Nat → Nat :=
  fun r c =>
    if h_begin ≤ r ∧ r < h_end ∧ w_begin ≤ c ∧ c < w_end then src r c else canvas r c

/-- `int(np.ceil(percentage * total_count / 100))`, as a natural-number ceiling
division (exact for the magnitudes the script handles). -/
def targetCount (percentage total_count : Nat) : Nat :=
  (percentage * total_count + 99) / 100

/-- The tile loop of `subset_patchify_MoNuSeg_data_by_cancer_intraimage`:
walks the remaining tiles carrying `curr_count` and the two effective canvases.
While `curr_count < target_count` the tile is written with real content to the
`train` tree and with zeroed content to the `test` tree; afterwards it is
written once with real content to the `test` tree and its region is copied
into the effective canvases.  Returns the write trace and the two final
canvases. -/
def intraLoop (image mask : Image) (imsize target_count : Nat) :
    List (Nat × Nat) → Nat → (Nat → Nat → Nat) → (Nat → Nat → Nat) →
      List PatchWrite × (Nat → Nat → Nat) × (Nat → Nat → Nat)
  | [], _, image_effective, mask_effective => ([], image_effective, mask_effective)
  | hw :: rest, curr_count, image_effective, mask_effective =>
    let h := hw.1
    let w := hw.2
    let h_begin := max h 0
    let w_begin := max w 0
    let h_end := min (h + imsize) image.H
    let w_end := min (w + imsize) image.W
    let image_patch := extractPatch image.pix h_begin h_end w_begin w_end
    let mask_patch := extractPatch mask.pix h_begin h_end w_begin w_end
    if curr_count < target_count then
      let res := intraLoop image mask imsize target_count rest (curr_count + 1)
        image_effective mask_effective
      ({ split := Split.train, h := h, w := w,
         image_patch := image_patch, mask_patch := mask_patch } ::
       { split := Split.test, h := h, w := w,
         image_patch := zeroPatch image_patch, mask_patch := zeroPatch mask_patch } ::
       res.1, res.2)
    else
      let res := intraLoop image mask imsize target_count rest (curr_count + 1)
        (updateRegion image_effective image.pix h_begin h_end w_begin w_end)
        (updateRegion mask_effective mask.pix h_begin h_end w_begin w_end)
      ({ split := Split.test, h := h, w := w,
         image_patch := image_patch, mask_patch := mask_patch } :: res.1, res.2)

/-- The per-test-image body of `subset_patchify_MoNuSeg_data_by_cancer_intraimage`:
compute `total_count` and `target_count`, start the effective canvases all-zero,
and run the tile loop over the grid offsets with `curr_count = 0`. -/
def subset_patchify_MoNuSeg_data_by_cancer_intraimage (image mask : Image)
    (imsize percentage : Nat) :
    List PatchWrite × (Nat → Nat → Nat) × (Nat → Nat → Nat) :=
  let total_count := (image.H / imsize) * (image.W / imsize)
  let target_count := targetCount percentage total_count
  intraLoop image mask imsize target_count (tileOffsets image.H image.W imsize) 0
    (fun _ _ => 0) (fun _ _ => 0)

/-- The writes the loop performs for the tile at offsets `hw` when the running
counter is `i`: two writes (real to `train`, zeroed to `test`) while
`i < target_count`, one real write to `test` otherwise. -/
def perTileWrites (image mask : Image) (imsize target_count i : Nat)
    (hw : Nat × Nat) : List PatchWrite :=
  let image_patch := extractPatch image.pix (max hw.1 0) (min (hw.1 + imsize) image.H)
    (max hw.2 0) (min (hw.2 + imsize) image.W)
  let mask_patch := extractPatch mask.pix (max hw.1 0) (min (hw.1 + imsize) image.H)
    (max hw.2 0) (min (hw.2 + imsize) image.W)
  if i < target_count then
    [{ split := Split.train, h := hw.1, w := hw.2,
       image_patch := image_patch, mask_patch := mask_patch },
     { split := Split.test, h := hw.1, w := hw.2,
       image_patch := zeroPatch image_patch, mask_patch := zeroPatch mask_patch }]
  else
    [{ split := Split.test, h := hw.1, w := hw.2,
       image_patch := image_patch, mask_patch := mask_patch }]

/-- Whether pixel `(r, c)` lies in the (clamped) region of the tile at offsets
`hw`, exactly as the loop's slice bounds compute it. -/
def inTileRegion (hw : Nat × Nat) (imsize image_h image_w r c : Nat) : Prop :=
  max hw.1 0 ≤ r ∧ r < min (hw.1 + imsize) image_h ∧
    max hw.2 0 ≤ c ∧ c < min (hw.2 + imsize) image_w

instance (hw : Nat × Nat) (imsize image_h image_w r c : Nat) :
    Decidable (inTileRegion hw imsize image_h image_w r c) := by
  unfold inTileRegion
  infer_instance

/-- The two writes performed for an evidence tile: real content to the `train`
tree, then zeroed content (same shape) to the `test` tree. -/
def evidenceWrites (image mask : Image) (imsize : Nat) (hw : Nat × Nat) :
    List PatchWrite :=
  let image_patch := extractPatch image.pix (max hw.1 0) (min (hw.1 + imsize) image.H)
    (max hw.2 0) (min (hw.2 + imsize) image.W)
  let mask_patch := extractPatch mask.pix (max hw.1 0) (min (hw.1 + imsize) image.H)
    (max hw.2 0) (min (hw.2 + imsize) image.W)
  [{ split := Split.train, h := hw.1, w := hw.2,
     image_patch := image_patch, mask_patch := mask_patch },
   { split := Split.test, h := hw.1, w := hw.2,
     image_patch := zeroPatch image_patch, mask_patch := zeroPatch mask_patch }]

/-- The single write performed for a held-out tile: real content to the `test`
tree. -/
def heldOutWrite (image mask : Image) (imsize : Nat) (hw : Nat × Nat) :
    List PatchWrite :=
  [{ split := Split.test, h := hw.1, w := hw.2,
     image_patch := extractPatch image.pix (max hw.1 0) (min (hw.1 + imsize) image.H)
       (max hw.2 0) (min (hw.2 + imsize) image.W),
     mask_patch := extractPatch mask.pix (max hw.1 0) (min (hw.1 + imsize) image.H)
       (max hw.2 0) (min (hw.2 + imsize) image.W) }]

/-- One `<Vertex>` element of the annotation XML: its `X` and `Y`
floating-point attributes, modelled as rationals. -/
structure Vertex where
  X : Rat
  Y : Rat
deriving DecidableEq

/-- One `<Region>` element of the annotation XML: its declared `Area`
attribute, its integer `Id` attribute, and its nested vertex list. -/
structure Region where
  Area : Rat
  Id : Int
  vertices : List Vertex
deriving DecidableEq

/-- The region loop of `load_MoNuSeg_annotation`: a region whose declared
`Area` is below `1.0` is skipped (counter incremented), then a region with
fewer than 3 vertices is skipped (counter incremented); a surviving region
contributes its `[y, x]` vertex array to `verts_list` and its `Id` to
`region_id_list`.  Returns `(verts_list, region_id_list, cnt_invalid)`. -/
def load_MoNuSeg_annot : List Region → List (List (Rat × Rat)) × List Int × Nat
  | [] => ([], [], 0)
  | region :: rest =>
    let res := load_MoNuSeg_annot rest
    if region.Area < 1 then
      (res.1, res.2.1, res.2.2 + 1)
    else if region.vertices.length < 3 then
      (res.1, res.2.1, res.2.2 + 1)
    else
      (region.vertices.map (fun vertex => (vertex.Y, vertex.X)) :: res.1,
        region.Id :: res.2.1, res.2.2)

/-- A region survives the parser's two checks: declared area at least `1.0`
and at least 3 vertices. -/
def validRegion (region : Region) : Bool :=
  decide (1 ≤ region.Area) && decide (3 ≤ region.vertices.length)

/-- Exactly 3 pairwise collinear vertices (zero enclosed geometric area). -/
def collinear3 (vs : List Vertex) : Prop :=
  match vs with
  | [a, b, c] => (b.Y - a.Y) * (c.X - a.X) = (c.Y - a.Y) * (b.X - a.X)
  | _ => False

instance (vs : List Vertex) : Decidable (collinear3 vs) := by
  unfold collinear3
  rcases vs with _ | ⟨a, _ | ⟨b, _ | ⟨c, _ | _⟩⟩⟩ <;> infer_instance

/-- The external geometry primitives `annotation_to_label` delegates to:
`skimage.draw.polygon2mask` (which marks at least every pixel strictly inside
the polygon) and `skimage.measure.centroid` (truncated to integers by the
caller). -/
structure RasterLib where
  polygon2mask : Nat × Nat → List (Rat × Rat) → Nat → Nat → Bool
  centroid : (Nat → Nat → Bool) → Int × Int

/-- The accumulation loop of `annotation_to_label`: start from an all-zero
`uint8` label, rasterize each cell onto the canvas shape, fold it in with
`np.maximum`, and append the cell's integer centroid.  Returns the label and
the centroid list. -/
def annotation_to_label (lib : RasterLib) (verts_list : List (List (Rat × Rat)))
    (H W : Nat) : (Nat → Nat → Nat) × List (Int × Int) :=
  verts_list.foldl
    (fun acc cell =>
      let cell_mask := lib.polygon2mask (H, W) cell
      (fun r c => max (acc.1 r c) (cell_mask r c).toNat,
        acc.2 ++ [lib.centroid cell_mask]))
    (fun _ _ => 0, [])

/-- Python `int(...)` applied to a real coordinate: truncation toward zero. -/
def pyInt (q : Rat) : Int :=
  q.num.tdiv q.den

/-- The bounds check of `detection_eval`:
`n[0] < 0 or n[0] >= mask.shape[0] or n[1] < 0 or n[1] >= mask.shape[1]`. -/
def outOfBounds (n : Rat × Rat) (image_h image_w : Nat) : Prop :=
  n.1 < 0 ∨ (image_h : Rat) ≤ n.1 ∨ n.2 < 0 ∨ (image_w : Rat) ≤ n.2

instance (n : Rat × Rat) (image_h image_w : Nat) :
    Decidable (outOfBounds n image_h image_w) := by
  unfold outOfBounds
  infer_instance

/-- `np.sum` of a value over the `H × W` grid. -/
def gridSum (image_h image_w : Nat) (f : Nat → Nat → Nat) : Nat :=
  ((List.range image_h).map fun r =>
    ((List.range image_w).map fun c => f r c).sum).sum

/-- `detection_eval` from `simple_nuclei_detector.py`: binarize the mask, mark
each in-bounds detected point (skipping any point outside the mask bounds) on
an all-zero canvas at its truncated integer coordinates, then
`TP = sum(nuclei_mask * mask)` and `FN = total_pos - TP`.  The float `recall`
is not modelled; the integer-valued `(TP, FN)` pair is returned. -/
def detection_eval (nuclei_list : List (Rat × Rat)) (mask : Image)
    (total_pos : Int) : Nat × Int :=
  let binmask : Nat → Nat → Nat := fun r c => if 0 < mask.pix r c then 1 else 0
  let nuclei_mask := nuclei_list.foldl
    (fun nm n =>
      if outOfBounds n mask.H mask.W then nm
      else fun r c =>
        if (r : Int) = pyInt n.1 ∧ (c : Int) = pyInt n.2 then 1 else nm r c)
    (fun _ _ => 0)
  let TP := gridSum mask.H mask.W fun r c => nuclei_mask r c * binmask r c
  (TP, total_pos - (TP : Int))

/-- Abstract stand-in for `datasets.synthetic.SyntheticDataset`: only its
channel count and length are observable to `prepare_dataset`. -/
structure SyntheticDataset where
  num_image_channel : Nat
  length : Nat
deriving DecidableEq

/-- The observable configuration of a `torch.utils.data.DataLoader` as built
by `prepare_dataset`. -/
structure DataLoaderT where
  dataset_len : Nat
  batch_size : Nat
  shuffle : Bool
  num_workers : Nat
deriving DecidableEq

/-- The Python exception `prepare_dataset` raises for an unknown dataset. -/
inductive PrepError where
  | ValueError (msg : String) : PrepError
deriving DecidableEq

/-- The configuration fields `prepare_dataset` reads. -/
structure Config where
  dataset_name : String
  dataset_path : String
  target_dim : Nat
  train_val_test_ratios : String
  random_seed : Nat
  batch_size : Nat
  num_workers : Nat

/-- `prepare_dataset` from `src/utils/prepare_dataset.py`, parameterized over
the external dataset constructor and the ratio splitter: a non-`synthetic`
`dataset_name` raises `ValueError` before any dataset or loader is built;
otherwise the synthetic dataset is built, split into train/val/test, the train
split is extended to at least `batch_size * 5` items and loaded shuffled, the
val/test splits are loaded unshuffled in a single batch each, and the
dataset's channel count is returned alongside the three loaders. -/
def prepare_dataset (SyntheticDatasetOf : String → Nat → SyntheticDataset)
    (split_dataset : SyntheticDataset → String → Nat → Nat × Nat × Nat)
    (config : Config) :
    Except PrepError (DataLoaderT × DataLoaderT × DataLoaderT × Nat) :=
  if config.dataset_name = "synthetic" then
    let dataset := SyntheticDatasetOf config.dataset_path config.target_dim
    let num_image_channel := dataset.num_image_channel
    let splits := split_dataset dataset config.train_val_test_ratios
      config.random_seed
    let min_batch_per_epoch := 5
    let desired_len := max splits.1 (config.batch_size * min_batch_per_epoch)
    Except.ok
      ({ dataset_len := desired_len, batch_size := config.batch_size,
         shuffle := true, num_workers := config.num_workers },
        { dataset_len := splits.2.1, batch_size := splits.2.1,
          shuffle := false, num_workers := config.num_workers },
        { dataset_len := splits.2.2, batch_size := splits.2.2,
          shuffle := false, num_workers := config.num_workers },
        num_image_channel)
  else
    Except.error (PrepError.ValueError
      "Dataset not found. Check `dataset_name` in config yaml file.")

theorem flatMap_range_eq_range_mul {α : Type} (m n : Nat) (hn : 0 < n)
    (f : Nat → Nat → α) :
    (List.range m).flatMap (fun a => (List.range n).map fun b => f a b) =
      (List.range (m * n)).map fun i => f (i / n) (i % n) := by
  induction m with
  | zero => simp
  | succ m ih =>
    rw [List.range_succ, List.flatMap_append, ih, Nat.succ_mul, List.range_add,
      List.map_append, List.map_map]
    simp only [List.flatMap_cons, List.flatMap_nil, List.append_nil]
    congr 1
    apply List.map_congr_left
    intro b hb
    rw [List.mem_range] at hb
    simp only [Function.comp_apply]
    have h1 : (m * n + b) / n = m := by
      rw [Nat.mul_comm, Nat.mul_add_div hn, Nat.div_eq_of_lt hb, Nat.add_zero]
    have h2 : (m * n + b) % n = b := by
      rw [Nat.mul_comm, Nat.mul_add_mod, Nat.mod_eq_of_lt hb]
    rw [h1, h2]

theorem tileOffsets_eq_rowMajor (image_h image_w imsize : Nat) (hW : 0 < image_w / imsize) :
    tileOffsets image_h image_w imsize =
      (List.range ((image_h / imsize) * (image_w / imsize))).map
        (rowMajorTile image_w imsize) := by
  unfold tileOffsets rowMajorTile
  exact flatMap_range_eq_range_mul _ _ hW _

theorem tileOffsets_length (image_h image_w imsize : Nat) :
    (tileOffsets image_h image_w imsize).length =
      (image_h / imsize) * (image_w / imsize) := by
  unfold tileOffsets
  rw [List.length_flatMap]
  have : (List.length ∘ fun h_chunk : Nat =>
      (List.range (image_w / imsize)).map fun w_chunk =>
        (h_chunk * imsize, w_chunk * imsize)) = fun _ => image_w / imsize := by
    funext a; simp
  rw [this, List.map_const', List.sum_replicate, List.length_range, smul_eq_mul]

theorem tileOffsets_mem (image_h image_w imsize : Nat) (hw : Nat × Nat) :
    hw ∈ tileOffsets image_h image_w imsize ↔
      ∃ h_chunk < image_h / imsize, ∃ w_chunk < image_w / imsize,
        hw = (h_chunk * imsize, w_chunk * imsize) := by
  unfold tileOffsets
  simp only [List.mem_flatMap, List.mem_map, List.mem_range]
  constructor
  · rintro ⟨a, ha, b, hb, rfl⟩
    exact ⟨a, ha, b, hb, rfl⟩
  · rintro ⟨a, ha, b, hb, rfl⟩
    exact ⟨a, ha, b, hb, rfl⟩

/-- For a full grid tile (`h_chunk < H / imsize`), the clamped end
`min (h_chunk * imsize + imsize) H` is just `h_chunk * imsize + imsize`:
full tiles are never actually truncated. -/
theorem grid_tile_not_clamped {H imsize h_chunk : Nat} (h : h_chunk < H / imsize) :
    min (h_chunk * imsize + imsize) H = h_chunk * imsize + imsize := by
  have h1 : h_chunk * imsize + imsize ≤ (H / imsize) * imsize := by
    have := Nat.succ_le_of_lt h
    calc h_chunk * imsize + imsize = (h_chunk + 1) * imsize := by ring
    _ ≤ (H / imsize) * imsize := Nat.mul_le_mul_right imsize this
  exact Nat.min_eq_left (le_trans h1 (Nat.div_mul_le_self H imsize))

theorem intraLoop_writes (image mask : Image) (imsize target_count : Nat)
    (tiles : List (Nat × Nat)) (curr_count : Nat)
    (e1 e2 : Nat → Nat → Nat) :
    (intraLoop image mask imsize target_count tiles curr_count e1 e2).1 =
      (tiles.enumFrom curr_count).flatMap fun p =>
        perTileWrites image mask imsize target_count p.1 p.2 := by
  induction tiles generalizing curr_count e1 e2 with
  | nil => simp [intraLoop]
  | cons hw rest ih =>
    by_cases hlt : curr_count < target_count
    · simp only [intraLoop, if_pos hlt, List.enumFrom_cons, List.flatMap_cons,
        perTileWrites, ih]
      rfl
    · simp only [intraLoop, if_neg hlt, List.enumFrom_cons, List.flatMap_cons,
        perTileWrites, ih]
      rfl

theorem enumFrom_flatMap_split {α β : Type} (tiles : List α) (n t : Nat)
    (g h : α → List β) :
    ((List.enumFrom n tiles).flatMap fun p => if p.1 < t then g p.2 else h p.2) =
      (tiles.take (t - n)).flatMap g ++ (tiles.drop (t - n)).flatMap h := by
  induction tiles generalizing n with
  | nil => simp
  | cons a l ih =>
    rw [List.enumFrom_cons, List.flatMap_cons, ih (n + 1)]
    by_cases hlt : n < t
    · have ht : t - n = (t - (n + 1)) + 1 := by omega
      rw [if_pos hlt, ht, List.take_succ_cons, List.drop_succ_cons, List.flatMap_cons,
        List.append_assoc]
    · have ht : t - n = 0 := by omega
      have ht' : t - (n + 1) = 0 := by omega
      rw [if_neg hlt, ht, ht', List.take_zero, List.drop_zero, List.take_zero,
        List.drop_zero, List.flatMap_nil, List.nil_append, List.nil_append,
        List.flatMap_cons]

theorem perTileWrites_eq (image mask : Image) (imsize target_count i : Nat)
    (hw : Nat × Nat) :
    perTileWrites image mask imsize target_count i hw =
      if i < target_count then evidenceWrites image mask imsize hw
      else heldOutWrite image mask imsize hw := by
  by_cases h : i < target_count <;>
    simp [perTileWrites, evidenceWrites, heldOutWrite, h]

/-- The full write trace of the intra-image partitioner: the first
`target_count` grid tiles each produce a real `train` write followed by a
zeroed `test` write; every later tile produces a single real `test` write. -/
theorem intraLoop_writes_take_drop (image mask : Image) (imsize target_count : Nat)
    (tiles : List (Nat × Nat)) (e1 e2 : Nat → Nat → Nat) :
    (intraLoop image mask imsize target_count tiles 0 e1 e2).1 =
      ((tiles.take target_count).flatMap fun hw =>
        evidenceWrites image mask imsize hw) ++
      ((tiles.drop target_count).flatMap fun hw =>
        heldOutWrite image mask imsize hw) := by
  rw [intraLoop_writes]
  simp only [perTileWrites_eq]
  have hsplit := enumFrom_flatMap_split tiles 0 target_count
    (fun hw => evidenceWrites image mask imsize hw)
    (fun hw => heldOutWrite image mask imsize hw)
  rw [Nat.sub_zero] at hsplit
  exact hsplit

theorem extractPatch_length (pix : Nat → Nat → Nat) (h_begin h_end w_begin w_end : Nat) :
    (extractPatch pix h_begin h_end w_begin w_end).length = h_end - h_begin := by
  simp [extractPatch]

theorem extractPatch_row_length (pix : Nat → Nat → Nat)
    (h_begin h_end w_begin w_end : Nat) (row : List Nat)
    (hrow : row ∈ extractPatch pix h_begin h_end w_begin w_end) :
    row.length = w_end - w_begin := by
  simp only [extractPatch, List.mem_map] at hrow
  obtain ⟨i, _, rfl⟩ := hrow
  simp

/-- Pointwise value of the two effective canvases after the loop: a pixel holds
the source value if some tile processed with counter at least `target_count`
covers it, and otherwise keeps its initial value. -/
theorem intraLoop_effective (image mask : Image) (imsize target_count : Nat)
    (tiles : List (Nat × Nat)) (curr_count : Nat) (e1 e2 : Nat → Nat → Nat)
    (r c : Nat) :
    (((∃ p ∈ tiles.enumFrom curr_count, target_count ≤ p.1 ∧
        inTileRegion p.2 imsize image.H image.W r c) →
      (intraLoop image mask imsize target_count tiles curr_count e1 e2).2.1 r c =
        image.pix r c ∧
      (intraLoop image mask imsize target_count tiles curr_count e1 e2).2.2 r c =
        mask.pix r c) ∧
     ((¬ ∃ p ∈ tiles.enumFrom curr_count, target_count ≤ p.1 ∧
        inTileRegion p.2 imsize image.H image.W r c) →
      (intraLoop image mask imsize target_count tiles curr_count e1 e2).2.1 r c =
        e1 r c ∧
      (intraLoop image mask imsize target_count tiles curr_count e1 e2).2.2 r c =
        e2 r c)) := by
  induction tiles generalizing curr_count e1 e2 with
  | nil =>
    constructor
    · rintro ⟨p, hp, -⟩
      simp at hp
    · intro _
      exact ⟨rfl, rfl⟩
  | cons hw rest ih =>
    by_cases hlt : curr_count < target_count
    · have hred1 :
          (intraLoop image mask imsize target_count (hw :: rest) curr_count e1 e2).2 =
          (intraLoop image mask imsize target_count rest (curr_count + 1) e1 e2).2 := by
        simp only [intraLoop, if_pos hlt]
      have hhead : ¬ (target_count ≤ (curr_count, hw).1 ∧
          inTileRegion (curr_count, hw).2 imsize image.H image.W r c) := by
        rintro ⟨hle, -⟩
        omega
      constructor
      · rintro ⟨p, hp, hcond⟩
        rw [List.enumFrom_cons, List.mem_cons] at hp
        rcases hp with rfl | hp
        · exact absurd hcond hhead
        · have := (ih (curr_count + 1) e1 e2).1 ⟨p, hp, hcond⟩
          rw [hred1]
          exact this
      · intro hnone
        have hnone' : ¬ ∃ p ∈ rest.enumFrom (curr_count + 1), target_count ≤ p.1 ∧
            inTileRegion p.2 imsize image.H image.W r c := by
          rintro ⟨p, hp, hcond⟩
          exact hnone ⟨p, by rw [List.enumFrom_cons]; exact List.mem_cons_of_mem _ hp, hcond⟩
        have := (ih (curr_count + 1) e1 e2).2 hnone'
        rw [hred1]
        exact this
    · have hred2 :
          (intraLoop image mask imsize target_count (hw :: rest) curr_count e1 e2).2 =
          (intraLoop image mask imsize target_count rest (curr_count + 1)
            (updateRegion e1 image.pix (max hw.1 0) (min (hw.1 + imsize) image.H)
              (max hw.2 0) (min (hw.2 + imsize) image.W))
            (updateRegion e2 mask.pix (max hw.1 0) (min (hw.1 + imsize) image.H)
              (max hw.2 0) (min (hw.2 + imsize) image.W))).2 := by
        simp only [intraLoop, if_neg hlt]
      constructor
      · rintro ⟨p, hp, hcond⟩
        rw [List.enumFrom_cons, List.mem_cons] at hp
        by_cases hrest : ∃ p ∈ rest.enumFrom (curr_count + 1), target_count ≤ p.1 ∧
            inTileRegion p.2 imsize image.H image.W r c
        · have := (ih (curr_count + 1)
            (updateRegion e1 image.pix (max hw.1 0) (min (hw.1 + imsize) image.H)
              (max hw.2 0) (min (hw.2 + imsize) image.W))
            (updateRegion e2 mask.pix (max hw.1 0) (min (hw.1 + imsize) image.H)
              (max hw.2 0) (min (hw.2 + imsize) image.W))).1 hrest
          rw [hred2]
          exact this
        · have hphead : p = (curr_count, hw) := by
            rcases hp with rfl | hp
            · rfl
            · exact absurd ⟨p, hp, hcond⟩ hrest
          subst hphead
          have hreg : inTileRegion hw imsize image.H image.W r c := hcond.2
          have := (ih (curr_count + 1)
            (updateRegion e1 image.pix (max hw.1 0) (min (hw.1 + imsize) image.H)
              (max hw.2 0) (min (hw.2 + imsize) image.W))
            (updateRegion e2 mask.pix (max hw.1 0) (min (hw.1 + imsize) image.H)
              (max hw.2 0) (min (hw.2 + imsize) image.W))).2 hrest
          rw [hred2]
          refine ⟨?_, ?_⟩
          · rw [this.1]
            simp only [updateRegion]
            exact if_pos hreg
          · rw [this.2]
            simp only [updateRegion]
            exact if_pos hreg
      · intro hnone
        have hnone' : ¬ ∃ p ∈ rest.enumFrom (curr_count + 1), target_count ≤ p.1 ∧
            inTileRegion p.2 imsize image.H image.W r c := by
          rintro ⟨p, hp, hcond⟩
          exact hnone ⟨p, by rw [List.enumFrom_cons]; exact List.mem_cons_of_mem _ hp, hcond⟩
        have hreg : ¬ inTileRegion hw imsize image.H image.W r c := by
          intro hreg
          exact hnone ⟨(curr_count, hw), by rw [List.enumFrom_cons]; exact List.mem_cons_self _ _,
            Nat.le_of_not_lt hlt, hreg⟩
        have := (ih (curr_count + 1)
            (updateRegion e1 image.pix (max hw.1 0) (min (hw.1 + imsize) image.H)
              (max hw.2 0) (min (hw.2 + imsize) image.W))
            (updateRegion e2 mask.pix (max hw.1 0) (min (hw.1 + imsize) image.H)
              (max hw.2 0) (min (hw.2 + imsize) image.W))).2 hnone'
        rw [hred2]
        refine ⟨?_, ?_⟩
        · rw [this.1]
          simp only [updateRegion]
          exact if_neg hreg
        · rw [this.2]
          simp only [updateRegion]
          exact if_neg hreg

theorem targetCount_le_total (percentage total_count : Nat) (hp : percentage ≤ 100) :
    targetCount percentage total_count ≤ total_count := by
  unfold targetCount
  have h1 : percentage * total_count + 99 ≤ 100 * total_count + 99 :=
    Nat.add_le_add_right (Nat.mul_le_mul_right total_count hp) 99
  have h2 : (100 * total_count + 99) / 100 = total_count := by
    rw [Nat.mul_add_div (by norm_num)]
    norm_num
  calc (percentage * total_count + 99) / 100 ≤ (100 * total_count + 99) / 100 :=
        Nat.div_le_div_right h1
    _ = total_count := h2

theorem tileOffsets_nodup (image_h image_w imsize : Nat) (hs : 0 < imsize) :
    (tileOffsets image_h image_w imsize).Nodup := by
  by_cases hW : 0 < image_w / imsize
  · rw [tileOffsets_eq_rowMajor image_h image_w imsize hW]
    apply List.Nodup.map_on _ (List.nodup_range _)
    intro x _ y _ hxy
    unfold rowMajorTile at hxy
    have h1 : x / (image_w / imsize) = y / (image_w / imsize) :=
      Nat.eq_of_mul_eq_mul_right hs (congrArg Prod.fst hxy)
    have h2 : x % (image_w / imsize) = y % (image_w / imsize) :=
      Nat.eq_of_mul_eq_mul_right hs (congrArg Prod.snd hxy)
    rw [← Nat.div_add_mod x (image_w / imsize), ← Nat.div_add_mod y (image_w / imsize),
      h1, h2]
  · have hW0 : image_w / imsize = 0 := Nat.eq_zero_of_not_pos hW
    have hlen : (tileOffsets image_h image_w imsize).length = 0 := by
      rw [tileOffsets_length, hW0, Nat.mul_zero]
    rw [List.eq_nil_of_length_eq_zero hlen]
    exact List.nodup_nil

/-- C2: the grid tiler emits exactly `floor(H/s) * floor(W/s)` tiles, visits
them in row-major order at the `s`-aligned offsets, each emitted patch is
exactly `s × s` (no partial tile is ever emitted), the offsets are exactly the
aligned grid pairs, and no offset repeats (the grid is non-overlapping). -/
theorem grid_tiler_spec (image mask : Image) (imsize : Nat) (hs : 0 < imsize) :
    (subset_patchify_MoNuSeg_data_by_cancer image mask imsize).length =
        (image.H / imsize) * (image.W / imsize) ∧
      (subset_patchify_MoNuSeg_data_by_cancer image mask imsize).map
          (fun t => (t.h, t.w)) =
        tileOffsets image.H image.W imsize ∧
      (∀ t ∈ subset_patchify_MoNuSeg_data_by_cancer image mask imsize,
        t.image_patch.length = imsize ∧ t.mask_patch.length = imsize ∧
        (∀ row ∈ t.image_patch, row.length = imsize) ∧
        (∀ row ∈ t.mask_patch, row.length = imsize)) ∧
      (∀ hw : Nat × Nat, hw ∈ (subset_patchify_MoNuSeg_data_by_cancer image mask
          imsize).map (fun t => (t.h, t.w)) ↔
        ∃ h_chunk < image.H / imsize, ∃ w_chunk < image.W / imsize,
          hw = (h_chunk * imsize, w_chunk * imsize)) ∧
      ((subset_patchify_MoNuSeg_data_by_cancer image mask imsize).map
        (fun t => (t.h, t.w))).Nodup := by
  have hmap : (subset_patchify_MoNuSeg_data_by_cancer image mask imsize).map
      (fun t => (t.h, t.w)) = tileOffsets image.H image.W imsize := by
    unfold subset_patchify_MoNuSeg_data_by_cancer
    rw [List.map_map]
    have : ((fun t : TilePatch => (t.h, t.w)) ∘ fun hw : Nat × Nat =>
        ({ h := hw.1, w := hw.2,
           image_patch := extractPatch image.pix (max hw.1 0)
             (min (hw.1 + imsize) image.H) (max hw.2 0) (min (hw.2 + imsize) image.W),
           mask_patch := extractPatch mask.pix (max hw.1 0)
             (min (hw.1 + imsize) image.H) (max hw.2 0) (min (hw.2 + imsize) image.W) }
          : TilePatch)) = id := by
      funext hw
      rfl
    rw [this, List.map_id]
  refine ⟨?_, hmap, ?_, ?_, ?_⟩
  · unfold subset_patchify_MoNuSeg_data_by_cancer
    rw [List.length_map]
    exact tileOffsets_length image.H image.W imsize
  · intro t ht
    unfold subset_patchify_MoNuSeg_data_by_cancer at ht
    rw [List.mem_map] at ht
    obtain ⟨hw, hwmem, rfl⟩ := ht
    rw [tileOffsets_mem] at hwmem
    obtain ⟨h_chunk, hh, w_chunk, hww, rfl⟩ := hwmem
    have hH : min (h_chunk * imsize + imsize) image.H = h_chunk * imsize + imsize :=
      grid_tile_not_clamped hh
    have hW : min (w_chunk * imsize + imsize) image.W = w_chunk * imsize + imsize :=
      grid_tile_not_clamped hww
    simp only [hH, hW]
    refine ⟨?_, ?_, ?_, ?_⟩
    · rw [extractPatch_length]
      omega
    · rw [extractPatch_length]
      omega
    · intro row hrow
      rw [extractPatch_row_length _ _ _ _ _ _ hrow]
      omega
    · intro row hrow
      rw [extractPatch_row_length _ _ _ _ _ _ hrow]
      omega
  · intro hw
    rw [hmap]
    exact tileOffsets_mem image.H image.W imsize hw
  · rw [hmap]
    exact tileOffsets_nodup image.H image.W imsize hs

/-- C2 witness: a concrete 5×7 image tiled at size 2 (2×3 full tiles, ragged
remainder dropped). -/
theorem grid_tiler_spec_witness :
    0 < 2 ∧
      (subset_patchify_MoNuSeg_data_by_cancer
          { H := 5, W := 7, pix := fun r c => r * 10 + c }
          { H := 5, W := 7, pix := fun r c => r + c } 2).length =
        (5 / 2) * (7 / 2) :=
  ⟨by decide,
    (grid_tiler_spec { H := 5, W := 7, pix := fun r c => r * 10 + c }
      { H := 5, W := 7, pix := fun r c => r + c } 2 (by decide)).1⟩

theorem filter_not_mem_take_eq_drop (l : List (Nat × Nat))
    (t : Nat) (h : l.Nodup) :
    (l.filter fun a => decide (a ∉ l.take t)) = l.drop t := by
  have hsplit := List.take_append_drop t l
  have hdisj : (l.take t).Disjoint (l.drop t) := by
    rw [← hsplit] at h
    exact (List.nodup_append.mp h).2.2
  conv_lhs =>
    arg 2
    rw [← hsplit]
  rw [List.filter_append]
  have hfilter1 : ((l.take t).filter fun a => decide (a ∉ l.take t)) = [] := by
    apply List.filter_eq_nil_iff.mpr
    intro a ha
    simp [ha]
  have hfilter2 : ((l.drop t).filter fun a => decide (a ∉ l.take t)) = l.drop t := by
    apply List.filter_eq_self.mpr
    intro a ha
    simp only [decide_eq_true_eq]
    intro hmem
    exact hdisj hmem ha
  rw [hfilter1, hfilter2, List.nil_append]

theorem intraimage_filter_train (image mask : Image) (imsize percentage : Nat) :
    ((subset_patchify_MoNuSeg_data_by_cancer_intraimage image mask imsize
        percentage).1.filter fun wr => decide (wr.split = Split.train)) =
      ((tileOffsets image.H image.W imsize).take
          (targetCount percentage ((image.H / imsize) * (image.W / imsize)))).map
        fun hw =>
          { split := Split.train, h := hw.1, w := hw.2,
            image_patch := extractPatch image.pix (max hw.1 0)
              (min (hw.1 + imsize) image.H) (max hw.2 0) (min (hw.2 + imsize) image.W),
            mask_patch := extractPatch mask.pix (max hw.1 0)
              (min (hw.1 + imsize) image.H) (max hw.2 0) (min (hw.2 + imsize) image.W) } := by
  unfold subset_patchify_MoNuSeg_data_by_cancer_intraimage
  rw [intraLoop_writes_take_drop, List.filter_append, List.filter_flatMap,
    List.filter_flatMap]
  have h1 : (fun hw : Nat × Nat =>
      (evidenceWrites image mask imsize hw).filter fun wr =>
        decide (wr.split = Split.train)) = fun hw =>
      [{ split := Split.train, h := hw.1, w := hw.2,
         image_patch := extractPatch image.pix (max hw.1 0)
           (min (hw.1 + imsize) image.H) (max hw.2 0) (min (hw.2 + imsize) image.W),
         mask_patch := extractPatch mask.pix (max hw.1 0)
           (min (hw.1 + imsize) image.H) (max hw.2 0) (min (hw.2 + imsize) image.W) }] := by
    funext hw
    simp [evidenceWrites, List.filter_cons]
  have h2 : (fun hw : Nat × Nat =>
      (heldOutWrite image mask imsize hw).filter fun wr =>
        decide (wr.split = Split.train)) = fun _ => ([] : List PatchWrite) := by
    funext hw
    simp [heldOutWrite, List.filter_cons]
  rw [h1, h2]
  rw [← List.map_eq_flatMap]
  have h3 : (((tileOffsets image.H image.W imsize).drop
      (targetCount percentage ((image.H / imsize) * (image.W / imsize)))).flatMap
      fun _ => ([] : List PatchWrite)) = [] := by
    simp
  rw [h3, List.append_nil]

theorem intraimage_filter_test (image mask : Image) (imsize percentage : Nat) :
    ((subset_patchify_MoNuSeg_data_by_cancer_intraimage image mask imsize
        percentage).1.filter fun wr => decide (wr.split = Split.test)) =
      (((tileOffsets image.H image.W imsize).take
          (targetCount percentage ((image.H / imsize) * (image.W / imsize)))).map
        fun hw =>
          { split := Split.test, h := hw.1, w := hw.2,
            image_patch := zeroPatch (extractPatch image.pix (max hw.1 0)
              (min (hw.1 + imsize) image.H) (max hw.2 0) (min (hw.2 + imsize) image.W)),
            mask_patch := zeroPatch (extractPatch mask.pix (max hw.1 0)
              (min (hw.1 + imsize) image.H) (max hw.2 0)
              (min (hw.2 + imsize) image.W)) }) ++
      (((tileOffsets image.H image.W imsize).drop
          (targetCount percentage ((image.H / imsize) * (image.W / imsize)))).map
        fun hw =>
          { split := Split.test, h := hw.1, w := hw.2,
            image_patch := extractPatch image.pix (max hw.1 0)
              (min (hw.1 + imsize) image.H) (max hw.2 0) (min (hw.2 + imsize) image.W),
            mask_patch := extractPatch mask.pix (max hw.1 0)
              (min (hw.1 + imsize) image.H) (max hw.2 0)
              (min (hw.2 + imsize) image.W) }) := by
  unfold subset_patchify_MoNuSeg_data_by_cancer_intraimage
  rw [intraLoop_writes_take_drop, List.filter_append, List.filter_flatMap,
    List.filter_flatMap]
  have h1 : (fun hw : Nat × Nat =>
      (evidenceWrites image mask imsize hw).filter fun wr =>
        decide (wr.split = Split.test)) = fun hw =>
      [{ split := Split.test, h := hw.1, w := hw.2,
         image_patch := zeroPatch (extractPatch image.pix (max hw.1 0)
           (min (hw.1 + imsize) image.H) (max hw.2 0) (min (hw.2 + imsize) image.W)),
         mask_patch := zeroPatch (extractPatch mask.pix (max hw.1 0)
           (min (hw.1 + imsize) image.H) (max hw.2 0)
           (min (hw.2 + imsize) image.W)) }] := by
    funext hw
    simp [evidenceWrites, List.filter_cons]
  have h2 : (fun hw : Nat × Nat =>
      (heldOutWrite image mask imsize hw).filter fun wr =>
        decide (wr.split = Split.test)) = fun hw =>
      [{ split := Split.test, h := hw.1, w := hw.2,
         image_patch := extractPatch image.pix (max hw.1 0)
           (min (hw.1 + imsize) image.H) (max hw.2 0) (min (hw.2 + imsize) image.W),
         mask_patch := extractPatch mask.pix (max hw.1 0)
           (min (hw.1 + imsize) image.H) (max hw.2 0)
           (min (hw.2 + imsize) image.W) }] := by
    funext hw
    simp [heldOutWrite, List.filter_cons]
  rw [h1, h2, ← List.map_eq_flatMap, ← List.map_eq_flatMap]

/-- C1: the intra-image partitioner visits the `floor(H/s) * floor(W/s)` grid
tiles in row-major order, assigns exactly the first `ceil(p * total / 100)`
tiles to the evidence (`train`) partition, and the remaining tiles to the
held-out (`test`) partition; the evidence and held-out tile counts are
`target` and `total - target`. -/
theorem intraimage_partition_assignment (image mask : Image)
    (imsize percentage : Nat) (hs : 0 < imsize)
    (hp : percentage = 5 ∨ percentage = 20 ∨ percentage = 50) :
    (tileOffsets image.H image.W imsize).length =
        (image.H / imsize) * (image.W / imsize) ∧
      tileOffsets image.H image.W imsize =
        (List.range ((image.H / imsize) * (image.W / imsize))).map
          (rowMajorTile image.W imsize) ∧
      ((((subset_patchify_MoNuSeg_data_by_cancer_intraimage image mask imsize
          percentage).1.filter fun wr => decide (wr.split = Split.train)).map
            fun wr => (wr.h, wr.w)) =
        (tileOffsets image.H image.W imsize).take
          (targetCount percentage ((image.H / imsize) * (image.W / imsize)))) ∧
      (((tileOffsets image.H image.W imsize).filter fun hw =>
          decide (hw ∉ ((subset_patchify_MoNuSeg_data_by_cancer_intraimage image mask
            imsize percentage).1.filter fun wr =>
              decide (wr.split = Split.train)).map fun wr => (wr.h, wr.w))) =
        (tileOffsets image.H image.W imsize).drop
          (targetCount percentage ((image.H / imsize) * (image.W / imsize)))) ∧
      ((tileOffsets image.H image.W imsize).take
          (targetCount percentage ((image.H / imsize) * (image.W / imsize)))).length =
        targetCount percentage ((image.H / imsize) * (image.W / imsize)) ∧
      ((tileOffsets image.H image.W imsize).drop
          (targetCount percentage ((image.H / imsize) * (image.W / imsize)))).length =
        (image.H / imsize) * (image.W / imsize) -
          targetCount percentage ((image.H / imsize) * (image.W / imsize)) := by
  have hp100 : percentage ≤ 100 := by rcases hp with rfl | rfl | rfl <;> norm_num
  have htle := targetCount_le_total percentage
    ((image.H / imsize) * (image.W / imsize)) hp100
  have hlen := tileOffsets_length image.H image.W imsize
  have hEv : (((subset_patchify_MoNuSeg_data_by_cancer_intraimage image mask imsize
      percentage).1.filter fun wr => decide (wr.split = Split.train)).map
        fun wr => (wr.h, wr.w)) =
      (tileOffsets image.H image.W imsize).take
        (targetCount percentage ((image.H / imsize) * (image.W / imsize))) := by
    rw [intraimage_filter_train, List.map_map]
    have : ((fun wr : PatchWrite => (wr.h, wr.w)) ∘ fun hw : Nat × Nat =>
        ({ split := Split.train, h := hw.1, w := hw.2,
           image_patch := extractPatch image.pix (max hw.1 0)
             (min (hw.1 + imsize) image.H) (max hw.2 0) (min (hw.2 + imsize) image.W),
           mask_patch := extractPatch mask.pix (max hw.1 0)
             (min (hw.1 + imsize) image.H) (max hw.2 0) (min (hw.2 + imsize) image.W) }
          : PatchWrite)) = id := by
      funext hw
      rfl
    rw [this, List.map_id]
  refine ⟨hlen, ?_, hEv, ?_, ?_, ?_⟩
  · by_cases hW : 0 < image.W / imsize
    · exact tileOffsets_eq_rowMajor image.H image.W imsize hW
    · have hW0 : image.W / imsize = 0 := Nat.eq_zero_of_not_pos hW
      have h0 : (tileOffsets image.H image.W imsize).length = 0 := by
        rw [hlen, hW0, Nat.mul_zero]
      rw [List.eq_nil_of_length_eq_zero h0, hW0, Nat.mul_zero]
      simp
  · rw [hEv]
    exact filter_not_mem_take_eq_drop (tileOffsets image.H image.W imsize) _
      (tileOffsets_nodup image.H image.W imsize hs)
  · rw [List.length_take, hlen]
    omega
  · rw [List.length_drop, hlen]

/-- C1 witness: the spec's own instance, a 1000×1000 image tiled at
`imsize = 200` with `percentage = 20` (25 tiles, 5 evidence, 20 held-out). -/
theorem intraimage_partition_assignment_witness :
    0 < 200 ∧ (20 = 5 ∨ 20 = 20 ∨ 20 = 50) ∧
      ((tileOffsets 1000 1000 200).take (targetCount 20 ((1000 / 200) * (1000 / 200)))).length =
        targetCount 20 ((1000 / 200) * (1000 / 200)) ∧
      targetCount 20 ((1000 / 200) * (1000 / 200)) = 5 ∧
      (1000 / 200) * (1000 / 200) = 25 :=
  ⟨by decide, Or.inr (Or.inl rfl),
    (intraimage_partition_assignment
      { H := 1000, W := 1000, pix := fun r c => r + c }
      { H := 1000, W := 1000, pix := fun r c => r * c }
      200 20 (by decide) (Or.inr (Or.inl rfl))).2.2.2.2.1,
    by decide, by decide⟩

/-- C4: every evidence tile is written exactly twice — its real image/mask
content into the evidence (`train`) tree and an all-zero pair of the same shape
into the held-out (`test`) tree at the same `_H<row>W<col>` offsets — while
every held-out tile is written exactly once, with real content, into the
held-out tree; `zeroPatch` preserves the shape of a patch and all of its
entries are zero. -/
theorem intraimage_write_multiplicity (image mask : Image)
    (imsize percentage : Nat) :
    (((subset_patchify_MoNuSeg_data_by_cancer_intraimage image mask imsize
        percentage).1.filter fun wr => decide (wr.split = Split.train)) =
      ((tileOffsets image.H image.W imsize).take
          (targetCount percentage ((image.H / imsize) * (image.W / imsize)))).map
        fun hw =>
          { split := Split.train, h := hw.1, w := hw.2,
            image_patch := extractPatch image.pix (max hw.1 0)
              (min (hw.1 + imsize) image.H) (max hw.2 0) (min (hw.2 + imsize) image.W),
            mask_patch := extractPatch mask.pix (max hw.1 0)
              (min (hw.1 + imsize) image.H) (max hw.2 0)
              (min (hw.2 + imsize) image.W) }) ∧
      (((subset_patchify_MoNuSeg_data_by_cancer_intraimage image mask imsize
          percentage).1.filter fun wr => decide (wr.split = Split.test)) =
        (((tileOffsets image.H image.W imsize).take
            (targetCount percentage ((image.H / imsize) * (image.W / imsize)))).map
          fun hw =>
            { split := Split.test, h := hw.1, w := hw.2,
              image_patch := zeroPatch (extractPatch image.pix (max hw.1 0)
                (min (hw.1 + imsize) image.H) (max hw.2 0)
                (min (hw.2 + imsize) image.W)),
              mask_patch := zeroPatch (extractPatch mask.pix (max hw.1 0)
                (min (hw.1 + imsize) image.H) (max hw.2 0)
                (min (hw.2 + imsize) image.W)) }) ++
        (((tileOffsets image.H image.W imsize).drop
            (targetCount percentage ((image.H / imsize) * (image.W / imsize)))).map
          fun hw =>
            { split := Split.test, h := hw.1, w := hw.2,
              image_patch := extractPatch image.pix (max hw.1 0)
                (min (hw.1 + imsize) image.H) (max hw.2 0)
                (min (hw.2 + imsize) image.W),
              mask_patch := extractPatch mask.pix (max hw.1 0)
                (min (hw.1 + imsize) image.H) (max hw.2 0)
                (min (hw.2 + imsize) image.W) })) ∧
      (∀ patch : List (List Nat),
        (zeroPatch patch).map List.length = patch.map List.length) ∧
      (∀ patch : List (List Nat), ∀ row ∈ zeroPatch patch, ∀ v ∈ row, v = 0) := by
  refine ⟨intraimage_filter_train image mask imsize percentage,
    intraimage_filter_test image mask imsize percentage, ?_, ?_⟩
  · intro patch
    unfold zeroPatch
    rw [List.map_map]
    apply List.map_congr_left
    intro row _
    simp
  · intro patch row hrow v hv
    unfold zeroPatch at hrow
    rw [List.mem_map] at hrow
    obtain ⟨row0, _, rfl⟩ := hrow
    rw [List.mem_map] at hv
    obtain ⟨v0, _, rfl⟩ := hv
    exact Nat.mul_zero v0

/-- C4 witness: instantiating the shape/content conjunct on a concrete patch
shows a concrete zeroed entry is zero. -/
theorem intraimage_write_multiplicity_witness :
    ([0] ∈ zeroPatch [[3]] ∧ (0 : Nat) ∈ [(0 : Nat)]) ∧ (0 : Nat) = 0 :=
  ⟨⟨by decide, by decide⟩,
    (intraimage_write_multiplicity
      { H := 4, W := 4, pix := fun r c => r + c }
      { H := 4, W := 4, pix := fun r c => r * c } 2 50).2.2.2
      [[3]] [0] (by decide) 0 (by decide)⟩

theorem exists_enumFrom_ge_iff_drop {α : Type} (l : List α) (n t : Nat)
    (P : α → Prop) :
    (∃ p ∈ List.enumFrom n l, t ≤ p.1 ∧ P p.2) ↔ ∃ a ∈ l.drop (t - n), P a := by
  induction l generalizing n with
  | nil => simp
  | cons a l ih =>
    rw [List.enumFrom_cons]
    by_cases hlt : n < t
    · have ht : t - n = (t - (n + 1)) + 1 := by omega
      rw [ht, List.drop_succ_cons, ← ih (n + 1), List.exists_mem_cons_iff]
      constructor
      · rintro (⟨hle, -⟩ | h)
        · omega
        · exact h
      · exact Or.inr
    · have ht : t - n = 0 := by omega
      have ht' : t - (n + 1) = 0 := by omega
      rw [List.exists_mem_cons_iff, ih (n + 1), ht', List.drop_zero, ht,
        List.drop_zero, List.exists_mem_cons_iff]
      constructor
      · rintro (⟨-, hPa⟩ | h)
        · exact Or.inl hPa
        · exact Or.inr h
      · rintro (hPa | h)
        · exact Or.inl ⟨by omega, hPa⟩
        · exact Or.inr h

/-- C3: after the intra-image partitioner finishes, each effective canvas
equals the source image/mask on every pixel covered by some held-out tile
(the tiles after the first `target` in row-major order) and is zero at every
other pixel. -/
theorem intraimage_effective_canvas (image mask : Image)
    (imsize percentage : Nat) (r c : Nat) :
    ((∃ hw ∈ (tileOffsets image.H image.W imsize).drop
        (targetCount percentage ((image.H / imsize) * (image.W / imsize))),
        inTileRegion hw imsize image.H image.W r c) →
      (subset_patchify_MoNuSeg_data_by_cancer_intraimage image mask imsize
          percentage).2.1 r c = image.pix r c ∧
      (subset_patchify_MoNuSeg_data_by_cancer_intraimage image mask imsize
          percentage).2.2 r c = mask.pix r c) ∧
    ((¬ ∃ hw ∈ (tileOffsets image.H image.W imsize).drop
        (targetCount percentage ((image.H / imsize) * (image.W / imsize))),
        inTileRegion hw imsize image.H image.W r c) →
      (subset_patchify_MoNuSeg_data_by_cancer_intraimage image mask imsize
          percentage).2.1 r c = 0 ∧
      (subset_patchify_MoNuSeg_data_by_cancer_intraimage image mask imsize
          percentage).2.2 r c = 0) := by
  unfold subset_patchify_MoNuSeg_data_by_cancer_intraimage
  have heff := intraLoop_effective image mask imsize
    (targetCount percentage ((image.H / imsize) * (image.W / imsize)))
    (tileOffsets image.H image.W imsize) 0 (fun _ _ => 0) (fun _ _ => 0) r c
  have hbr := exists_enumFrom_ge_iff_drop (tileOffsets image.H image.W imsize) 0
    (targetCount percentage ((image.H / imsize) * (image.W / imsize)))
    (fun hw => inTileRegion hw imsize image.H image.W r c)
  rw [Nat.sub_zero] at hbr
  constructor
  · intro hex
    exact heff.1 (hbr.mpr hex)
  · intro hnex
    exact heff.2 fun hcontra => hnex (hbr.mp hcontra)

/-- C3 witness: on a concrete 2×2 image split 50/50 at tile size 1, the pixel
`(1, 0)` is covered by a held-out tile, so the effective canvases carry the
source values there. -/
theorem intraimage_effective_canvas_witness :
    (∃ hw ∈ (tileOffsets 2 2 1).drop (targetCount 50 ((2 / 1) * (2 / 1))),
      inTileRegion hw 1 2 2 1 0) ∧
    (subset_patchify_MoNuSeg_data_by_cancer_intraimage
        { H := 2, W := 2, pix := fun r c => r * 10 + c + 1 }
        { H := 2, W := 2, pix := fun r c => r + c + 5 } 1 50).2.1 1 0 =
      (1 * 10 + 0 + 1 : Nat) ∧
    (subset_patchify_MoNuSeg_data_by_cancer_intraimage
        { H := 2, W := 2, pix := fun r c => r * 10 + c + 1 }
        { H := 2, W := 2, pix := fun r c => r + c + 5 } 1 50).2.2 1 0 =
      (1 + 0 + 5 : Nat) := by
  have h := (intraimage_effective_canvas
    { H := 2, W := 2, pix := fun r c => r * 10 + c + 1 }
    { H := 2, W := 2, pix := fun r c => r + c + 5 } 1 50 1 0).1 (by decide)
  exact ⟨by decide, h.1, h.2⟩

theorem extractPatch_congr (pix1 pix2 : Nat → Nat → Nat) (Hb Wb : Nat)
    (h_begin h_end w_begin w_end : Nat) (hhe : h_end ≤ Hb) (hwe : w_end ≤ Wb)
    (hpix : ∀ r c, r < Hb → c < Wb → pix1 r c = pix2 r c) :
    extractPatch pix1 h_begin h_end w_begin w_end =
      extractPatch pix2 h_begin h_end w_begin w_end := by
  unfold extractPatch
  apply List.map_congr_left
  intro i hi
  rw [List.mem_range] at hi
  apply List.map_congr_left
  intro j hj
  rw [List.mem_range] at hj
  exact hpix _ _ (by omega) (by omega)

/-- C8: the tiler and the intra-image partitioner are deterministic functions
of the observable input content — two runs on images/masks with the same
dimensions and the same pixels produce identical tile outputs, identical
partition assignments and write traces, and identical effective canvases. -/
theorem tiler_partitioner_deterministic (image1 image2 mask1 mask2 : Image)
    (imsize percentage : Nat) (hH : image1.H = image2.H) (hW : image1.W = image2.W)
    (himg : ∀ r c, r < image1.H → c < image1.W → image1.pix r c = image2.pix r c)
    (hmask : ∀ r c, r < image1.H → c < image1.W → mask1.pix r c = mask2.pix r c) :
    subset_patchify_MoNuSeg_data_by_cancer image1 mask1 imsize =
        subset_patchify_MoNuSeg_data_by_cancer image2 mask2 imsize ∧
      subset_patchify_MoNuSeg_data_by_cancer_intraimage image1 mask1 imsize
          percentage =
        subset_patchify_MoNuSeg_data_by_cancer_intraimage image2 mask2 imsize
          percentage := by
  have himgP : ∀ h_begin h_end w_begin w_end, h_end ≤ image1.H → w_end ≤ image1.W →
      extractPatch image1.pix h_begin h_end w_begin w_end =
        extractPatch image2.pix h_begin h_end w_begin w_end :=
    fun hb he wb we h1 h2 =>
      extractPatch_congr image1.pix image2.pix image1.H image1.W hb he wb we h1 h2 himg
  have hmaskP : ∀ h_begin h_end w_begin w_end, h_end ≤ image1.H → w_end ≤ image1.W →
      extractPatch mask1.pix h_begin h_end w_begin w_end =
        extractPatch mask2.pix h_begin h_end w_begin w_end :=
    fun hb he wb we h1 h2 =>
      extractPatch_congr mask1.pix mask2.pix image1.H image1.W hb he wb we h1 h2 hmask
  have hev : evidenceWrites image1 mask1 imsize = evidenceWrites image2 mask2 imsize := by
    funext hw
    unfold evidenceWrites
    rw [← hH, ← hW]
    rw [himgP _ _ _ _ (min_le_right _ _) (min_le_right _ _),
      hmaskP _ _ _ _ (min_le_right _ _) (min_le_right _ _)]
  have hho : heldOutWrite image1 mask1 imsize = heldOutWrite image2 mask2 imsize := by
    funext hw
    unfold heldOutWrite
    rw [← hH, ← hW]
    rw [himgP _ _ _ _ (min_le_right _ _) (min_le_right _ _),
      hmaskP _ _ _ _ (min_le_right _ _) (min_le_right _ _)]
  constructor
  · unfold subset_patchify_MoNuSeg_data_by_cancer
    rw [← hH, ← hW]
    apply List.map_congr_left
    intro hw _
    dsimp only
    rw [himgP _ _ _ _ (min_le_right _ _) (min_le_right _ _),
      hmaskP _ _ _ _ (min_le_right _ _) (min_le_right _ _)]
  · unfold subset_patchify_MoNuSeg_data_by_cancer_intraimage
    dsimp only
    rw [← hH, ← hW]
    refine Prod.ext ?_ (Prod.ext ?_ ?_)
    · rw [intraLoop_writes_take_drop, intraLoop_writes_take_drop, hev, hho]
    · funext r c
      have heff1 := intraLoop_effective image1 mask1 imsize
        (targetCount percentage ((image1.H / imsize) * (image1.W / imsize)))
        (tileOffsets image1.H image1.W imsize) 0 (fun _ _ => 0) (fun _ _ => 0) r c
      have heff2 := intraLoop_effective image2 mask2 imsize
        (targetCount percentage ((image2.H / imsize) * (image2.W / imsize)))
        (tileOffsets image2.H image2.W imsize) 0 (fun _ _ => 0) (fun _ _ => 0) r c
      rw [← hH, ← hW] at heff2
      by_cases hex : ∃ p ∈ (tileOffsets image1.H image1.W imsize).enumFrom 0,
          targetCount percentage ((image1.H / imsize) * (image1.W / imsize)) ≤ p.1 ∧
          inTileRegion p.2 imsize image1.H image1.W r c
      · have h1 := (heff1.1 hex).1
        have h2 := (heff2.1 hex).1
        obtain ⟨p, -, -, hreg⟩ := hex
        have hr : r < image1.H := lt_of_lt_of_le hreg.2.1 (min_le_right _ _)
        have hc : c < image1.W := lt_of_lt_of_le hreg.2.2.2 (min_le_right _ _)
        rw [h1, h2]
        exact himg r c hr hc
      · rw [(heff1.2 hex).1, (heff2.2 hex).1]
    · funext r c
      have heff1 := intraLoop_effective image1 mask1 imsize
        (targetCount percentage ((image1.H / imsize) * (image1.W / imsize)))
        (tileOffsets image1.H image1.W imsize) 0 (fun _ _ => 0) (fun _ _ => 0) r c
      have heff2 := intraLoop_effective image2 mask2 imsize
        (targetCount percentage ((image2.H / imsize) * (image2.W / imsize)))
        (tileOffsets image2.H image2.W imsize) 0 (fun _ _ => 0) (fun _ _ => 0) r c
      rw [← hH, ← hW] at heff2
      by_cases hex : ∃ p ∈ (tileOffsets image1.H image1.W imsize).enumFrom 0,
          targetCount percentage ((image1.H / imsize) * (image1.W / imsize)) ≤ p.1 ∧
          inTileRegion p.2 imsize image1.H image1.W r c
      · have h1 := (heff1.1 hex).2
        have h2 := (heff2.1 hex).2
        obtain ⟨p, -, -, hreg⟩ := hex
        have hr : r < image1.H := lt_of_lt_of_le hreg.2.1 (min_le_right _ _)
        have hc : c < image1.W := lt_of_lt_of_le hreg.2.2.2 (min_le_right _ _)
        rw [h1, h2]
        exact hmask r c hr hc
      · rw [(heff1.2 hex).2, (heff2.2 hex).2]

/-- C8 witness: two syntactically different but pixel-identical 2×2 inputs
produce identical outputs. -/
theorem tiler_partitioner_deterministic_witness :
    subset_patchify_MoNuSeg_data_by_cancer
        { H := 2, W := 2, pix := fun r c => r + c }
        { H := 2, W := 2, pix := fun r c => r * c } 1 =
      subset_patchify_MoNuSeg_data_by_cancer
        { H := 2, W := 2, pix := fun r c => c + r }
        { H := 2, W := 2, pix := fun r c => c * r } 1 ∧
    subset_patchify_MoNuSeg_data_by_cancer_intraimage
        { H := 2, W := 2, pix := fun r c => r + c }
        { H := 2, W := 2, pix := fun r c => r * c } 1 20 =
      subset_patchify_MoNuSeg_data_by_cancer_intraimage
        { H := 2, W := 2, pix := fun r c => c + r }
        { H := 2, W := 2, pix := fun r c => c * r } 1 20 :=
  tiler_partitioner_deterministic
    { H := 2, W := 2, pix := fun r c => r + c }
    { H := 2, W := 2, pix := fun r c => c + r }
    { H := 2, W := 2, pix := fun r c => r * c }
    { H := 2, W := 2, pix := fun r c => c * r }
    1 20 rfl rfl (fun r c _ _ => Nat.add_comm r c) (fun r c _ _ => Nat.mul_comm r c)

/-- C6: the parser excludes a region exactly when its declared area is below
`1.0` or it has fewer than 3 vertices, counts each excluded region without
aborting the remaining ones, and returns parallel vertex-list and region-id
sequences (same length, same order, ids of the surviving regions). -/
theorem load_MoNuSeg_annot_spec (regions : List Region) :
    (load_MoNuSeg_annot regions).1 =
        (regions.filter validRegion).map
          (fun region => region.vertices.map fun vertex => (vertex.Y, vertex.X)) ∧
      (load_MoNuSeg_annot regions).2.1 =
        (regions.filter validRegion).map (fun region => region.Id) ∧
      (load_MoNuSeg_annot regions).2.2 =
        (regions.filter fun region => ! validRegion region).length ∧
      (load_MoNuSeg_annot regions).1.length =
        (load_MoNuSeg_annot regions).2.1.length := by
  induction regions with
  | nil => exact ⟨rfl, rfl, rfl, rfl⟩
  | cons region rest ih =>
    obtain ⟨ih1, ih2, ih3, ih4⟩ := ih
    by_cases hA : region.Area < 1
    · have hval : validRegion region = false := by
        unfold validRegion
        have : ¬ (1 : Rat) ≤ region.Area := not_le.mpr hA
        simp [this]
      simp only [load_MoNuSeg_annot, if_pos hA, List.filter_cons, hval,
        Bool.not_false, if_neg, Bool.false_eq_true, ite_false, ite_true,
        List.length_cons]
      exact ⟨ih1, ih2, by rw [ih3], by rw [ih1, ih2]; simp⟩
    · by_cases hV : region.vertices.length < 3
      · have hval : validRegion region = false := by
          unfold validRegion
          have : ¬ (3 : Nat) ≤ region.vertices.length := not_le.mpr hV
          simp [this]
        simp only [load_MoNuSeg_annot, if_neg hA, if_pos hV, List.filter_cons,
          hval, Bool.not_false, Bool.false_eq_true, ite_false, ite_true,
          List.length_cons]
        exact ⟨ih1, ih2, by rw [ih3], by rw [ih1, ih2]; simp⟩
      · have hval : validRegion region = true := by
          unfold validRegion
          have h1 : (1 : Rat) ≤ region.Area := not_lt.mp hA
          have h2 : (3 : Nat) ≤ region.vertices.length := not_lt.mp hV
          simp [h1, h2]
        simp only [load_MoNuSeg_annot, if_neg hA, if_neg hV, List.filter_cons,
          hval, Bool.not_true, Bool.false_eq_true, ite_false, ite_true,
          List.map_cons, List.length_cons]
        exact ⟨by rw [ih1], by rw [ih2], by rw [ih3], by rw [ih1, ih2]; simp⟩

/-- C7 counterexample: a region with exactly 3 collinear vertices (zero
enclosed geometric area) but declared `Area` attribute `5.0` passes the area
check — which reads the declared attribute, not the geometry — and its vertex
list reaches the rasterizer input (`verts_list`) with the invalid counter
still zero, contradicting the claim that such a region is rejected regardless
of its declared `Area`. -/
theorem collinear_region_not_rejected :
    collinear3 [{ X := 0, Y := 0 }, { X := 1, Y := 1 }, { X := 2, Y := 2 }] ∧
      (load_MoNuSeg_annot
        [{ Area := 5, Id := 1,
           vertices := [{ X := 0, Y := 0 }, { X := 1, Y := 1 },
             { X := 2, Y := 2 }] }]).1 = [[(0, 0), (1, 1), (2, 2)]] ∧
      (load_MoNuSeg_annot
        [{ Area := 5, Id := 1,
           vertices := [{ X := 0, Y := 0 }, { X := 1, Y := 1 },
             { X := 2, Y := 2 }] }]).2.2 = 0 := by
  refine ⟨?_, ?_, by decide⟩
  · show ((1 : Rat) - 0) * (2 - 0) = (2 - 0) * (1 - 0)
    norm_num
  · decide

/-- C7 amended: a region with exactly 3 collinear vertices is rejected before
rasterization if and only if its declared `Area` attribute is below `1.0`
(the area check reads the declared attribute, not the geometric area); with a
declared area of at least `1.0` the region survives to the rasterizer input. -/
theorem collinear_region_area_check (region : Region)
    (h3 : region.vertices.length = 3) (_hcol : collinear3 region.vertices) :
    (region.Area < 1 → load_MoNuSeg_annot [region] = ([], [], 1)) ∧
      (1 ≤ region.Area → load_MoNuSeg_annot [region] =
        ([region.vertices.map fun vertex => (vertex.Y, vertex.X)],
          [region.Id], 0)) := by
  constructor
  · intro hA
    simp [load_MoNuSeg_annot, if_pos hA]
  · intro hA
    have hnA : ¬ region.Area < 1 := not_lt.mpr hA
    have hnV : ¬ region.vertices.length < 3 := by omega
    simp [load_MoNuSeg_annot, if_neg hnA, if_neg hnV]

/-- C7 amended witness: a collinear 3-vertex region with declared area `1/2`
is rejected by the area check. -/
theorem collinear_region_area_check_witness :
    ({ Area := 0, Id := 7,
       vertices := [{ X := 0, Y := 0 }, { X := 1, Y := 2 }, { X := 2, Y := 4 }] }
          : Region).vertices.length = 3 ∧
      collinear3 ({ Area := 0, Id := 7,
                    vertices := [{ X := 0, Y := 0 }, { X := 1, Y := 2 },
                      { X := 2, Y := 4 }] } : Region).vertices ∧
      ((0 : Rat) < 1) ∧
      load_MoNuSeg_annot
          [{ Area := 0, Id := 7,
             vertices := [{ X := 0, Y := 0 }, { X := 1, Y := 2 },
               { X := 2, Y := 4 }] }] =
        ([], [], 1) :=
  ⟨by decide,
    by
      show ((2 : Rat) - 0) * (2 - 0) = (4 - 0) * (1 - 0)
      norm_num,
    by decide,
    (collinear_region_area_check
      { Area := 0, Id := 7,
        vertices := [{ X := 0, Y := 0 }, { X := 1, Y := 2 }, { X := 2, Y := 4 }] }
      (by decide)
      (by
        show ((2 : Rat) - 0) * (2 - 0) = (4 - 0) * (1 - 0)
        norm_num)).1 (by decide)⟩

theorem ann_fold_snd (lib : RasterLib) (H W : Nat) (l : List (List (Rat × Rat)))
    (label0 : Nat → Nat → Nat) (cents0 : List (Int × Int)) :
    (l.foldl
      (fun (acc : (Nat → Nat → Nat) × List (Int × Int)) cell =>
        let cell_mask := lib.polygon2mask (H, W) cell
        (fun r c => max (acc.1 r c) (cell_mask r c).toNat,
          acc.2 ++ [lib.centroid cell_mask]))
      (label0, cents0)).2 =
      cents0 ++ l.map fun cell => lib.centroid (lib.polygon2mask (H, W) cell) := by
  induction l generalizing label0 cents0 with
  | nil => simp
  | cons cell l ih =>
    rw [List.foldl_cons]
    dsimp only
    rw [ih]
    simp

theorem ann_fold_fst_mem01 (lib : RasterLib) (H W : Nat)
    (l : List (List (Rat × Rat))) (label0 : Nat → Nat → Nat)
    (cents0 : List (Int × Int))
    (h0 : ∀ r c, label0 r c = 0 ∨ label0 r c = 1) (r c : Nat) :
    (l.foldl
      (fun (acc : (Nat → Nat → Nat) × List (Int × Int)) cell =>
        let cell_mask := lib.polygon2mask (H, W) cell
        (fun r c => max (acc.1 r c) (cell_mask r c).toNat,
          acc.2 ++ [lib.centroid cell_mask]))
      (label0, cents0)).1 r c = 0 ∨
    (l.foldl
      (fun (acc : (Nat → Nat → Nat) × List (Int × Int)) cell =>
        let cell_mask := lib.polygon2mask (H, W) cell
        (fun r c => max (acc.1 r c) (cell_mask r c).toNat,
          acc.2 ++ [lib.centroid cell_mask]))
      (label0, cents0)).1 r c = 1 := by
  induction l generalizing label0 cents0 with
  | nil => exact h0 r c
  | cons cell l ih =>
    rw [List.foldl_cons]
    dsimp only
    apply ih
    intro r c
    have hb : (lib.polygon2mask (H, W) cell r c).toNat ≤ 1 := Bool.toNat_le _
    rcases h0 r c with h | h <;> rw [h] <;> omega

theorem ann_fold_fst_le (lib : RasterLib) (H W : Nat)
    (l : List (List (Rat × Rat))) (label0 : Nat → Nat → Nat)
    (cents0 : List (Int × Int)) (r c : Nat) :
    label0 r c ≤
      (l.foldl
        (fun (acc : (Nat → Nat → Nat) × List (Int × Int)) cell =>
          let cell_mask := lib.polygon2mask (H, W) cell
          (fun r c => max (acc.1 r c) (cell_mask r c).toNat,
            acc.2 ++ [lib.centroid cell_mask]))
        (label0, cents0)).1 r c := by
  induction l generalizing label0 cents0 with
  | nil => exact le_refl _
  | cons cell l ih =>
    rw [List.foldl_cons]
    refine le_trans
      (le_max_left (label0 r c) ((lib.polygon2mask (H, W) cell r c).toNat)) ?_
    exact ih (fun r c => max (label0 r c) ((lib.polygon2mask (H, W) cell r c).toNat))
      (cents0 ++ [lib.centroid (lib.polygon2mask (H, W) cell)])

theorem ann_fold_fst_ge_of_mem (lib : RasterLib) (H W : Nat)
    (l : List (List (Rat × Rat))) (label0 : Nat → Nat → Nat)
    (cents0 : List (Int × Int)) (cell : List (Rat × Rat)) (hcell : cell ∈ l)
    (r c : Nat) (hmask : lib.polygon2mask (H, W) cell r c = true) :
    1 ≤
      (l.foldl
        (fun (acc : (Nat → Nat → Nat) × List (Int × Int)) cell =>
          let cell_mask := lib.polygon2mask (H, W) cell
          (fun r c => max (acc.1 r c) (cell_mask r c).toNat,
            acc.2 ++ [lib.centroid cell_mask]))
        (label0, cents0)).1 r c := by
  induction l generalizing label0 cents0 with
  | nil => cases hcell
  | cons a l ih =>
    rw [List.foldl_cons]
    rcases List.mem_cons.mp hcell with rfl | hmem
    · refine le_trans ?_ (ann_fold_fst_le lib H W l
        (fun r c => max (label0 r c) ((lib.polygon2mask (H, W) cell r c).toNat))
        (cents0 ++ [lib.centroid (lib.polygon2mask (H, W) cell)]) r c)
      rw [hmask]
      exact le_max_right (label0 r c) (Bool.toNat true)
    · exact ih
        (fun r c => max (label0 r c) ((lib.polygon2mask (H, W) a r c).toNat))
        (cents0 ++ [lib.centroid (lib.polygon2mask (H, W) a)]) hmem

/-- C5: for any set of surviving polygons, the rasterizer's mask contains only
the values 0 and 1; every pixel the rasterization primitive marks for some
polygon — in particular every pixel strictly inside at least one polygon,
under the primitive's contract `hlib` — ends up 1; and the centroid list has
exactly one integer pair per polygon, in input order. -/
theorem annotation_to_label_spec (lib : RasterLib)
    (verts_list : List (List (Rat × Rat))) (H W : Nat)
    (insideP : List (Rat × Rat) → Nat → Nat → Prop)
    (hlib : ∀ cell r c, insideP cell r c →
      lib.polygon2mask (H, W) cell r c = true) :
    (∀ r c, (annotation_to_label lib verts_list H W).1 r c = 0 ∨
        (annotation_to_label lib verts_list H W).1 r c = 1) ∧
      (∀ cell ∈ verts_list, ∀ r c, insideP cell r c →
        (annotation_to_label lib verts_list H W).1 r c = 1) ∧
      (annotation_to_label lib verts_list H W).2 =
        verts_list.map fun cell => lib.centroid (lib.polygon2mask (H, W) cell) := by
  refine ⟨?_, ?_, ?_⟩
  · intro r c
    exact ann_fold_fst_mem01 lib H W verts_list (fun _ _ => 0) []
      (fun _ _ => Or.inl rfl) r c
  · intro cell hcell r c hin
    have hge := ann_fold_fst_ge_of_mem lib H W verts_list (fun _ _ => 0) []
      cell hcell r c (hlib cell r c hin)
    have h01 := ann_fold_fst_mem01 lib H W verts_list (fun _ _ => 0) []
      (fun _ _ => Or.inl rfl) r c
    unfold annotation_to_label
    rcases h01 with h | h
    · rw [h] at hge
      exact absurd hge (by decide)
    · exact h
  · have := ann_fold_snd lib H W verts_list (fun _ _ => 0) []
    unfold annotation_to_label
    rw [this, List.nil_append]

/-- C5 witness: with a concrete primitive marking exactly pixel `(0, 0)` and
the matching strict-interior predicate, the mask is 1 at `(0, 0)` for a
polygon in the list. -/
theorem annotation_to_label_spec_witness :
    ([(0, 0), (0, 1), (1, 0)] ∈ [[((0 : Rat), (0 : Rat)), (0, 1), (1, 0)]] ∧
      (0 = 0 ∧ 0 = 0)) ∧
    (annotation_to_label
        { polygon2mask := fun _ _ r c => decide (r = 0 ∧ c = 0),
          centroid := fun _ => (0, 0) }
        [[((0 : Rat), (0 : Rat)), (0, 1), (1, 0)]] 2 2).1 0 0 = 1 :=
  ⟨⟨by decide, ⟨rfl, rfl⟩⟩,
    (annotation_to_label_spec
      { polygon2mask := fun _ _ r c => decide (r = 0 ∧ c = 0),
        centroid := fun _ => (0, 0) }
      [[((0 : Rat), (0 : Rat)), (0, 1), (1, 0)]] 2 2
      (fun _ r c => r = 0 ∧ c = 0)
      (fun _ r c h => decide_eq_true h)).2.1
      [(0, 0), (0, 1), (1, 0)] (by decide) 0 0 ⟨rfl, rfl⟩⟩

theorem pyInt_eq_floor (q : Rat) (hq : 0 ≤ q) : pyInt q = ⌊q⌋ := by
  unfold pyInt
  rw [Rat.floor_def]
  exact Int.tdiv_eq_ediv (Rat.num_nonneg.mpr hq) (Int.ofNat_nonneg _)

/-- C9: `detection_eval` skips any detected point outside the mask bounds —
removing such a point from the list changes neither TP nor FN — and for any
in-bounds point the truncated integer coordinates it indexes the nuclei mask
with are nonnegative and strictly below the mask height/width. -/
theorem detection_eval_skips_oob (mask : Image) (total_pos : Int)
    (l1 l2 : List (Rat × Rat)) (n : Rat × Rat) :
    (outOfBounds n mask.H mask.W →
      detection_eval (l1 ++ n :: l2) mask total_pos =
        detection_eval (l1 ++ l2) mask total_pos) ∧
    (¬ outOfBounds n mask.H mask.W →
      0 ≤ pyInt n.1 ∧ (pyInt n.1).toNat < mask.H ∧
      0 ≤ pyInt n.2 ∧ (pyInt n.2).toNat < mask.W) := by
  constructor
  · intro h
    unfold detection_eval
    rw [List.foldl_append, List.foldl_append, List.foldl_cons, if_pos h]
  · intro h
    unfold outOfBounds at h
    push_neg at h
    obtain ⟨h1, h2, h3, h4⟩ := h
    have hf1 : pyInt n.1 = ⌊n.1⌋ := pyInt_eq_floor n.1 h1
    have hf2 : pyInt n.2 = ⌊n.2⌋ := pyInt_eq_floor n.2 h3
    have hb1 : 0 ≤ pyInt n.1 := by rw [hf1]; exact Int.floor_nonneg.mpr h1
    have hb2 : 0 ≤ pyInt n.2 := by rw [hf2]; exact Int.floor_nonneg.mpr h3
    refine ⟨hb1, ?_, hb2, ?_⟩
    · rw [Int.toNat_lt hb1, hf1]
      exact Int.floor_lt.mpr (by exact_mod_cast h2)
    · rw [Int.toNat_lt hb2, hf2]
      exact Int.floor_lt.mpr (by exact_mod_cast h4)

/-- C9 witness: the out-of-bounds point `(5, 0)` on a 2×2 mask contributes
nothing to the evaluation. -/
theorem detection_eval_skips_oob_witness :
    outOfBounds ((5 : Rat), (0 : Rat)) 2 2 ∧
      detection_eval [((5 : Rat), (0 : Rat))]
          { H := 2, W := 2, pix := fun r c => r + c } 3 =
        detection_eval [] { H := 2, W := 2, pix := fun r c => r + c } 3 :=
  ⟨by decide,
    (detection_eval_skips_oob { H := 2, W := 2, pix := fun r c => r + c } 3
      [] [] ((5 : Rat), (0 : Rat))).1 (by decide)⟩

/-- C10: for any configuration whose `dataset_name` is not `"synthetic"`,
`prepare_dataset` raises `ValueError` before constructing any dataset or
loader (its result does not depend on the dataset constructor or the
splitter); when `dataset_name` is `"synthetic"` the error branch is
unreachable and three loaders plus the dataset's channel count are
returned. -/
theorem prepare_dataset_synthetic_only
    (SyntheticDatasetOf SyntheticDatasetOf' : String → Nat → SyntheticDataset)
    (split_dataset split_dataset' : SyntheticDataset → String → Nat →
      Nat × Nat × Nat)
    (config : Config) :
    (config.dataset_name ≠ "synthetic" →
      prepare_dataset SyntheticDatasetOf split_dataset config =
        Except.error (PrepError.ValueError
          "Dataset not found. Check `dataset_name` in config yaml file.") ∧
      prepare_dataset SyntheticDatasetOf split_dataset config =
        prepare_dataset SyntheticDatasetOf' split_dataset' config) ∧
    (config.dataset_name = "synthetic" →
      ∃ train_loader val_loader test_loader,
        prepare_dataset SyntheticDatasetOf split_dataset config =
          Except.ok (train_loader, val_loader, test_loader,
            (SyntheticDatasetOf config.dataset_path
              config.target_dim).num_image_channel)) := by
  constructor
  · intro h
    constructor
    · unfold prepare_dataset
      rw [if_neg h]
    · unfold prepare_dataset
      rw [if_neg h, if_neg h]
  · intro h
    unfold prepare_dataset
    rw [if_pos h]
    exact ⟨_, _, _, rfl⟩

/-- C10 witness: a `"monuseg"` configuration raises `ValueError`; a
`"synthetic"` configuration returns three loaders and the channel count 3. -/
theorem prepare_dataset_synthetic_only_witness :
    ("monuseg" ≠ "synthetic" ∧
      prepare_dataset (fun _ d => { num_image_channel := 3, length := d })
          (fun ds _ _ => (ds.length, 1, 1))
          { dataset_name := "monuseg", dataset_path := "p", target_dim := 8,
            train_val_test_ratios := "6:2:2", random_seed := 0,
            batch_size := 4, num_workers := 2 } =
        Except.error (PrepError.ValueError
          "Dataset not found. Check `dataset_name` in config yaml file.")) ∧
    ("synthetic" = "synthetic" ∧
      ∃ train_loader val_loader test_loader,
        prepare_dataset (fun _ d => { num_image_channel := 3, length := d })
            (fun ds _ _ => (ds.length, 1, 1))
            { dataset_name := "synthetic", dataset_path := "p", target_dim := 8,
              train_val_test_ratios := "6:2:2", random_seed := 0,
              batch_size := 4, num_workers := 2 } =
          Except.ok (train_loader, val_loader, test_loader, 3)) :=
  ⟨⟨by decide,
    ((prepare_dataset_synthetic_only
      (fun _ d => { num_image_channel := 3, length := d })
      (fun _ d => { num_image_channel := 3, length := d })
      (fun ds _ _ => (ds.length, 1, 1)) (fun ds _ _ => (ds.length, 1, 1))
      { dataset_name := "monuseg", dataset_path := "p", target_dim := 8,
        train_val_test_ratios := "6:2:2", random_seed := 0,
        batch_size := 4, num_workers := 2 }).1 (by decide)).1⟩,
   ⟨rfl,
    (prepare_dataset_synthetic_only
      (fun _ d => { num_image_channel := 3, length := d })
      (fun _ d => { num_image_channel := 3, length := d })
      (fun ds _ _ => (ds.length, 1, 1)) (fun ds _ _ => (ds.length, 1, 1))
      { dataset_name := "synthetic", dataset_path := "p", target_dim := 8,
        train_val_test_ratios := "6:2:2", random_seed := 0,
        batch_size := 4, num_workers := 2 }).2 rfl⟩⟩

end MoNuSeg

